import Mathlib

/-!
Verification of `complexity/generate.py` (static site generator).

Paths are modelled as `List Char` (POSIX strings, abbreviated `Str`); the
helpers below are shallow embeddings of the CPython `posixpath` functions
that the source calls (`normpath`, `basename`, `dirname`, `join`,
`splitext`) and of Python `str.split`.  String literals enter through
`String.data`.
-/

abbrev Str := List Char

/-- Python `str.split(sep)` on character lists: `"".split(sep) = [""]`. -/
def splitOnChar (sep : Char) : Str → List Str
  | [] => [[]]
  | c :: cs =>
    match splitOnChar sep cs with
    | [] => [[c]]
    | w :: ws => if c = sep then [] :: w :: ws else (c :: w) :: ws

/-- Embedding of `posixpath.normpath`: drop empty and `.` components, resolve non-leading
`..` components, keep up to two initial slashes; the empty path becomes `.`. -/
def normpath (p : Str) : Str :=
  if p = [] then ['.']
  else
    let initialSlashes : Nat :=
      if p.take 1 = ['/'] then
        if p.take 2 = ['/', '/'] ∧ p.take 3 ≠ ['/', '/', '/'] then 2 else 1
      else 0
    let comps := splitOnChar '/' p
    let newComps := comps.foldl (fun acc comp =>
      if comp = [] ∨ comp = ['.'] then acc
      else if comp ≠ ['.', '.'] ∨ (initialSlashes = 0 ∧ acc = []) ∨
          acc.getLast? = some ['.', '.'] then acc ++ [comp]
      else acc.dropLast) []
    let path := List.replicate initialSlashes '/' ++ List.intercalate ['/'] newComps
    if path = [] then ['.'] else path

/-- Embedding of `posixpath.basename`: the part after the last slash. -/
def basename (p : Str) : Str :=
  (p.reverse.takeWhile (· != '/')).reverse

/-- Embedding of `posixpath.dirname`: the part up to the last slash, with trailing slashes
stripped unless that head consists only of slashes. -/
def dirname (p : Str) : Str :=
  let head := (p.reverse.dropWhile (· != '/')).reverse
  if head ≠ [] ∧ head.any (· != '/') then (head.reverse.dropWhile (· == '/')).reverse
  else head

/-- Embedding of `posixpath.join` on two operands: the right one wins if absolute,
otherwise a single separator is inserted unless the left is empty or
already slash-terminated. -/
def joinPath (a b : Str) : Str :=
  if b.take 1 = ['/'] then b
  else if a = [] ∨ a.getLast? = some '/' then a ++ b
  else a ++ '/' :: b

/-- Embedding of `posixpath.splitext`: split off the extension at the last dot of the
final path component, unless all characters of that component before the
dot are themselves dots (so `.yml` has no extension). -/
def splitext (p : Str) : Str × Str :=
  let b := (p.reverse.takeWhile (· != '/')).reverse
  let bPre := ((b.reverse.dropWhile (· != '.')).drop 1).reverse
  if b.any (· == '.') ∧ bPre.any (· != '.') then
    let extRev := p.reverse.takeWhile (· != '.')
    ((p.reverse.drop (extRev.length + 1)).reverse, '.' :: extRev.reverse)
  else (p, [])

/-- Embedding of `get_output_filename` from `generate.py`.  `none` models the Python
`False` return (the Suppressed marker). -/
def get_output_filename (template_filepath output_dir : Str)
    (force_unexpanded expand : Bool) : Option Str :=
  let tf := normpath template_filepath
  let bn := basename tf
  let dn := dirname tf
  if "base".data.isPrefixOf bn then none
  else if force_unexpanded ∨ bn = "index.html".data ∨ ¬expand then
    some (joinPath output_dir tf)
  else
    let stem := (splitOnChar '.' bn).headD []
    some (joinPath (joinPath (joinPath output_dir dn) stem) "index.html".data)

/-- The ASCII characters of the regex class `\s` (the tests and templates of
the repository are ASCII; non-ASCII Unicode whitespace is out of scope of the
model). -/
def pySpace (c : Char) : Bool :=
  c == ' ' || c == '\t' || c == '\n' || c == '\r' || c == '\x0b' || c == '\x0c'

/-- Left-to-right scan of `re.sub(r">\s+<", "><", _)`: at a `>` whose
following maximal whitespace run is nonempty and ends right before a `<`,
the whole match is replaced by `><` and scanning resumes after the `<`;
every other character is copied (leftmost, non-overlapping matches, greedy
`\s+`). -/
def minifySub : Str → Str
  | [] => []
  | c :: cs =>
    if c = '>' ∧ cs.takeWhile pySpace ≠ [] ∧ (cs.dropWhile pySpace).take 1 = ['<'] then
      '>' :: '<' :: minifySub ((cs.dropWhile pySpace).drop 1)
    else
      c :: minifySub cs
termination_by l => l.length
decreasing_by
  · have h := congrArg List.length (List.takeWhile_append_dropWhile (p := pySpace) (l := cs))
    simp only [List.length_append] at h
    simp only [List.length_cons, List.length_drop]
    omega
  · simp

/-- Embedding of `minify_html` from `generate.py`: `re.sub(r">\s+<", "><", html)`. -/
def minify_html (html : Str) : Str := minifySub html

/-- The C7 claim's description, stated independently of the source: walk the
text remembering the character just left of the current position (`prev`);
a maximal whitespace run whose immediate left neighbour is `>` and whose
immediate right neighbour is `<` is replaced by nothing, and every other
character is left unchanged. -/
def specMinifyGo : Option Char → Str → Str
  | _, [] => []
  | prev, c :: cs =>
    if pySpace c then
      let run := c :: cs.takeWhile pySpace
      let rest := cs.dropWhile pySpace
      (if prev = some '>' ∧ rest.take 1 = ['<'] then [] else run) ++
        specMinifyGo run.getLast? rest
    else
      c :: specMinifyGo (some c) cs
termination_by _ l => l.length
decreasing_by
  · have h := congrArg List.length (List.takeWhile_append_dropWhile (p := pySpace) (l := cs))
    simp only [List.length_append] at h
    simp only [List.length_cons]
    omega
  · simp

/-- Whole-text version of the C7 claim's description. -/
def specMinify (s : Str) : Str := specMinifyGo none s

/-- Embedding of `_ignore` from `generate.py`.  `isBin` abstracts `is_binary(path)`: a
byte-level content sniff that a path model cannot compute, so it is passed
as an oracle. -/
def _ignore (isBin : Bool) (path : Str) : Bool :=
  let fn := basename path
  let ext := (splitext path).2
  if isBin then true
  else if fn = "complexity.yml".data then true
  else if ext = ".j2".data ∨ ext = ".yml".data then true
  else false

/-- Existence classification of a filesystem path (`os.path.exists` is true
for `file` and `dir`). -/
inductive PathKind
  | absent
  | file
  | dir
deriving DecidableEq

/-- Abstraction of the filesystem and of the rendering collaborator that
`generate_html` consumes: the kind of entry at `templates_dir`, the walk
result (file paths relative to the template root), content binary-ness by
full path, and Jinja rendering of a template name (the environment and the
context are fixed for one run, so rendering is a function of the template
path alone). -/
structure TemplateFS where
  kind : PathKind
  files : List Str
  binary : Str → Bool
  render : Str → Str

/-- The error conditions of `generate_html`
(`MissingTemplateDirException`). -/
inductive GenErr
  | missingTemplateDir
deriving DecidableEq

/-- Embedding of `generate_html_file` from `generate.py`: skip paths starting with
`base`, render, optionally minify, resolve the output path, and write unless
the resolver suppressed the file.  The returned value is the write performed
(output path and content), `none` when nothing is written. -/
def generate_html_file (template_filepath output_dir : Str) (render : Str → Str)
    (force_unexpanded minify expand : Bool) : Option (Str × Str) :=
  if "base".data.isPrefixOf template_filepath then none
  else
    let rendered := render template_filepath
    let rendered := if minify then minify_html rendered else rendered
    match get_output_filename template_filepath output_dir force_unexpanded expand with
    | some out => some (out, rendered)
    | none => none

/-- Embedding of `generate_html` from `generate.py`.  The result carries the writes
performed and the Python return value of the function — its body has no
`return` statement, hence always `none`.  NOTE (faithful to the source): the
loop calls `generate_html_file(template_filepath, output_dir, env, context,
force_unexpanded, expand)` with positional arguments, so the caller's
`expand` is received by the callee's `minify` parameter and the callee's
`expand` keeps its default value `True`. -/
def generate_html (fs : TemplateFS) (templates_dir output_dir : Str)
    (unexpanded_templates : List Str) (expand : Bool) :
    Except GenErr (List (Str × Str) × Option Nat) :=
  if fs.kind = PathKind.absent then Except.error GenErr.missingTemplateDir
  else
    Except.ok (fs.files.filterMap (fun template_filepath =>
      let force_unexpanded := unexpanded_templates.contains template_filepath
      if _ignore (fs.binary (joinPath templates_dir template_filepath))
          (joinPath templates_dir template_filepath) then none
      else generate_html_file template_filepath output_dir fs.render
        force_unexpanded expand true), none)

/-- One iteration of the `generate_context` loop from `generate.py`.  A
directory entry is a file name paired with the value parsing that file would
produce, where `none` models the Python value `None` (an empty or `null`
JSON/YAML document); for an unrecognized extension no parser runs and `obj`
stays `None`.  The context dict is modelled as a lookup function. -/
def contextStep {V : Type} (context : Str → Option V) (entry : Str × Option V) :
    Str → Option V :=
  let name := (splitext entry.1).1
  let ext := (splitext entry.1).2
  let obj : Option V :=
    if ext = ".json".data then entry.2
    else if ext = ".yml".data ∨ ext = ".yaml".data then entry.2
    else none
  match obj with
  | some v => fun k => if k = name then some v else context k
  | none => context

/-- The whole `generate_context` loop over the directory listing. -/
def generate_context {V : Type} (entries : List (Str × Option V)) : Str → Option V :=
  entries.foldl contextStep (fun _ => none)

/-- A direct entry of the assets directory: a subdirectory, a regular file,
or anything else (`os.path.isdir` and `os.path.isfile` both false, e.g. a
broken symlink). -/
inductive AssetEntry
  | dir (name : Str)
  | file (name : Str)
  | other (name : Str)

/-- The error condition of `shutil.copytree` on an existing destination
(`FileExistsError`). -/
inductive CopyErr
  | destinationExists
deriving DecidableEq

/-- Embedding of `copy_assets` from `generate.py` over the listing of `assets_dir`.
`existing` is the set (list) of names already present under `output_dir`.
`shutil.copytree` fails when its destination exists; `shutil.copyfile`
overwrites silently.  Returns the copied names in order together with the
final existence state. -/
def copy_assets (assets : List AssetEntry) (existing : List Str) :
    Except CopyErr (List Str × List Str) :=
  match assets with
  | [] => Except.ok ([], existing)
  | AssetEntry.dir name :: rest =>
    if name ≠ "scss".data ∧ name ≠ "less".data then
      if existing.contains name then Except.error CopyErr.destinationExists
      else
        match copy_assets rest (name :: existing) with
        | Except.ok (evs, ex') => Except.ok (name :: evs, ex')
        | Except.error e => Except.error e
    else copy_assets rest existing
  | AssetEntry.file name :: rest =>
    (match copy_assets rest (name :: existing) with
     | Except.ok (evs, ex') => Except.ok (name :: evs, ex')
     | Except.error e => Except.error e)
  | AssetEntry.other _ :: rest => copy_assets rest existing

/-- Case analysis of the resolver on a slash-normalized template path whose
base name does not start with `base` (shared helper). -/
theorem resolverCases (p out : Str) (fu ex : Bool)
    (hnorm : normpath p = p)
    (hbase : "base".data.isPrefixOf (basename p) = false) :
    (fu = true ∨ basename p = "index.html".data ∨ ex = false →
      get_output_filename p out fu ex = some (joinPath out p))
    ∧ (fu = false → basename p ≠ "index.html".data → ex = true →
      get_output_filename p out fu ex =
        some (joinPath (joinPath (joinPath out (dirname p))
          ((splitOnChar '.' (basename p)).headD [])) "index.html".data)) := by
  constructor
  · intro h
    rcases h with h | h | h <;>
      simp [get_output_filename, hnorm, hbase, h]
  · intro h1 h2 h3
    simp [get_output_filename, hnorm, hbase, h1, h2, h3]

/-- C2: for a template path whose base name does not start with `base`
(stated for slash-normalized template paths, the invariant of the spec's
TemplatePath): the resolver returns `outputRoot/templatePath` unchanged when
`forceUnexpanded` is true, or the base name is exactly `index.html`, or
`expand` is false; otherwise it returns `outputRoot/dirName/stem/index.html`
where `stem` is the part of the base name before its first dot. -/
theorem C2_resolver_rules (p out : Str) (fu ex : Bool)
    (hnorm : normpath p = p)
    (hbase : "base".data.isPrefixOf (basename p) = false) :
    (fu = true ∨ basename p = "index.html".data ∨ ex = false →
      get_output_filename p out fu ex = some (joinPath out p))
    ∧ (fu = false → basename p ≠ "index.html".data → ex = true →
      get_output_filename p out fu ex =
        some (joinPath (joinPath (joinPath out (dirname p))
          ((splitOnChar '.' (basename p)).headD [])) "index.html".data)) :=
  resolverCases p out fu ex hnorm hbase

/-- Witness for C2 at the claim's example and a flat case:
`resolve("art/page.html", "www", false, true)` is `www/art/page/index.html`,
and `resolve("404.html", "www", true, true)` is `www/404.html`. -/
theorem C2_resolver_rules_witness :
    get_output_filename "art/page.html".data "www".data false true =
      some "www/art/page/index.html".data
    ∧ get_output_filename "404.html".data "www".data true true =
      some "www/404.html".data := by
  have h1 := (C2_resolver_rules "art/page.html".data "www".data false true
    (by decide) (by decide)).2 rfl (by decide) rfl
  have h2 := (C2_resolver_rules "404.html".data "www".data true true
    (by decide) (by decide)).1 (Or.inl rfl)
  exact ⟨h1.trans (by decide), h2.trans (by decide)⟩

/-- C3: a template path whose base name (after normalization) starts with
`base` is suppressed, for every combination of the two flags. -/
theorem C3_base_suppressed (p out : Str) (fu ex : Bool)
    (hbase : "base".data.isPrefixOf (basename (normpath p)) = true) :
    get_output_filename p out fu ex = none := by
  simp [get_output_filename, hbase]

/-- Witness for C3: `base.html` is suppressed under one concrete flag
combination (the theorem covers all four). -/
theorem C3_base_suppressed_witness :
    get_output_filename "base.html".data "www".data false true = none :=
  C3_base_suppressed "base.html".data "www".data false true (by decide)

theorem splitOnChar_ne_nil (sep : Char) (l : Str) : splitOnChar sep l ≠ [] := by
  induction l with
  | nil => simp [splitOnChar]
  | cons c cs ih =>
    simp only [splitOnChar]
    cases h : splitOnChar sep cs with
    | nil => simp
    | cons w ws =>
      by_cases hc : c = sep <;> simp [hc]

theorem splitOnChar_dot_head (cs : Str) :
    (splitOnChar '.' ('.' :: cs)).headD [] = [] := by
  have h := splitOnChar_ne_nil '.' cs
  cases hs : splitOnChar '.' cs with
  | nil => exact absurd hs h
  | cons w ws => simp [splitOnChar, hs]

theorem take_one_eq (l : Str) (x : Char) (h : l.take 1 = [x]) : l = x :: l.tail := by
  cases l with
  | nil => simp at h
  | cons a t => simp_all [List.take]

theorem getLast?_append_ne_nil (l₁ l₂ : Str) (h : l₂ ≠ []) :
    (l₁ ++ l₂).getLast? = l₂.getLast? := by
  rw [List.getLast?_append]
  cases hl : l₂.getLast? with
  | none => exact absurd (List.getLast?_eq_none_iff.mp hl) h
  | some a => rfl

theorem takeWhile_append_all (p : Char → Bool) (l₁ l₂ : Str)
    (h : ∀ a ∈ l₁, p a = true) : (l₁ ++ l₂).takeWhile p = l₁ ++ l₂.takeWhile p := by
  induction l₁ with
  | nil => simp
  | cons c cs ih => simp_all [List.takeWhile]

theorem joinPath_eq_append (a b : Str) (hb : b.take 1 ≠ ['/'])
    (ha : a = [] ∨ a.getLast? = some '/') : joinPath a b = a ++ b := by
  simp [joinPath, hb, ha]

theorem joinPath_eq_sep (a b : Str) (hb : b.take 1 ≠ ['/'])
    (ha1 : a ≠ []) (ha2 : a.getLast? ≠ some '/') : joinPath a b = a ++ '/' :: b := by
  simp [joinPath, hb, ha1, ha2]

/-- Joining an empty path component inserts only a separator, which the next
join swallows again: `join(join(s, ""), y) = join(s, y)` for relative `y`. -/
theorem joinPath_nil_collapse (s y : Str) (hy : y.take 1 ≠ ['/']) :
    joinPath (joinPath s []) y = joinPath s y := by
  by_cases h : s = [] ∨ s.getLast? = some '/'
  · rw [joinPath_eq_append s [] (by decide) h, List.append_nil]
  · push_neg at h
    rw [joinPath_eq_sep s [] (by decide) h.1 h.2,
        joinPath_eq_append _ y hy (Or.inr (List.getLast?_concat s)),
        joinPath_eq_sep s y hy h.1 h.2]
    simp

theorem take_one_append (b x : Str) (h : b ≠ []) : (b ++ x).take 1 = b.take 1 := by
  cases b with
  | nil => exact absurd rfl h
  | cons c cs => simp [List.take]

/-- `posixpath.join` is associative on relative right operands. -/
theorem joinPath_assoc (a b c : Str) (hb : b.take 1 ≠ ['/']) (hc : c.take 1 ≠ ['/']) :
    joinPath (joinPath a b) c = joinPath a (joinPath b c) := by
  by_cases hb0 : b = []
  · subst hb0
    rw [joinPath_eq_append [] c hc (Or.inl rfl), List.nil_append]
    by_cases ha : a = [] ∨ a.getLast? = some '/'
    · rw [joinPath_eq_append a [] (by decide) ha, List.append_nil]
    · push_neg at ha
      rw [joinPath_eq_sep a [] (by decide) ha.1 ha.2,
          joinPath_eq_append _ c hc (Or.inr (List.getLast?_concat a)),
          joinPath_eq_sep a c hc ha.1 ha.2]
      simp
  · have hbc1 : (b ++ ('/' :: c)).take 1 ≠ ['/'] := by rwa [take_one_append b _ hb0]
    have hbc2 : (b ++ c).take 1 ≠ ['/'] := by rwa [take_one_append b _ hb0]
    by_cases hbl : b.getLast? = some '/'
    · rw [joinPath_eq_append b c hc (Or.inr hbl)]
      by_cases ha : a = [] ∨ a.getLast? = some '/'
      · have habl : (a ++ b).getLast? = some '/' := by
          rw [getLast?_append_ne_nil a b hb0]; exact hbl
        rw [joinPath_eq_append a b hb ha,
            joinPath_eq_append _ c hc (Or.inr habl),
            joinPath_eq_append a _ hbc2 ha]
        simp
      · push_neg at ha
        have habl : (a ++ '/' :: b).getLast? = some '/' := by
          rw [getLast?_append_ne_nil a _ (by simp),
              show ('/' :: b) = ['/'] ++ b from rfl, getLast?_append_ne_nil _ b hb0]
          exact hbl
        rw [joinPath_eq_sep a b hb ha.1 ha.2,
            joinPath_eq_append _ c hc (Or.inr habl),
            joinPath_eq_sep a _ hbc2 ha.1 ha.2]
        simp
    · rw [joinPath_eq_sep b c hc hb0 hbl]
      by_cases ha : a = [] ∨ a.getLast? = some '/'
      · have habl : (a ++ b).getLast? ≠ some '/' := by
          rw [getLast?_append_ne_nil a b hb0]; exact hbl
        rw [joinPath_eq_append a b hb ha,
            joinPath_eq_sep _ c hc (by simp [hb0]) habl,
            joinPath_eq_append a _ hbc1 ha]
        simp
      · push_neg at ha
        have habl : (a ++ '/' :: b).getLast? ≠ some '/' := by
          rw [getLast?_append_ne_nil a _ (by simp),
              show ('/' :: b) = ['/'] ++ b from rfl, getLast?_append_ne_nil _ b hb0]
          exact hbl
        rw [joinPath_eq_sep a b hb ha.1 ha.2,
            joinPath_eq_sep _ c hc (by simp) habl,
            joinPath_eq_sep a _ hbc1 ha.1 ha.2]
        simp

/-- The base name of `join(d, s)` is `s` itself whenever `s` contains no
slash. -/
theorem basename_joinPath (d s : Str) (hs : ∀ c ∈ s, (c != '/') = true) :
    basename (joinPath d s) = s := by
  have hs1 : s.take 1 ≠ ['/'] := by
    cases s with
    | nil => simp
    | cons c cs =>
      have := hs c (by simp)
      simp [List.take]
      intro hcs
      simp [hcs] at this
  have hself : s.reverse.takeWhile (· != '/') = s.reverse := by
    rw [List.takeWhile_eq_self_iff]
    intro a ha
    exact hs a (List.mem_reverse.mp ha)
  by_cases ha : d = [] ∨ d.getLast? = some '/'
  · have hj : joinPath d s = d ++ s := joinPath_eq_append d s hs1 ha
    rcases ha with ha | ha
    · subst ha
      simp only [hj, List.nil_append, basename]
      rw [hself, List.reverse_reverse]
    · have hdrev : d.reverse = '/' :: d.reverse.tail := by
        have hh : d.reverse.head? = some '/' := by rw [List.head?_reverse]; exact ha
        cases hd : d.reverse with
        | nil => rw [hd] at hh; simp at hh
        | cons x xs =>
          rw [hd] at hh
          simp at hh
          simp [hd, hh]
      simp only [hj, basename, List.reverse_append]
      rw [takeWhile_append_all _ _ _ (fun a ha => hs a (List.mem_reverse.mp ha)),
          hdrev]
      simp [List.takeWhile]
  · push_neg at ha
    have hj : joinPath d s = d ++ '/' :: s := joinPath_eq_sep d s hs1 ha.1 ha.2
    simp only [hj, basename, List.reverse_append, List.reverse_cons,
      List.append_assoc, List.singleton_append]
    rw [takeWhile_append_all _ _ _ (fun a ha => hs a (List.mem_reverse.mp ha))]
    simp [List.takeWhile]

/-- C10: a hidden template file (base name starting with `.`, for a
slash-normalized relative template path) resolved with `expand = true` and
`forceUnexpanded = false` yields an empty stem, the empty segment is dropped
by path joining, and the output is `outputRoot/dirName/index.html` — the very
path that a file named `index.html` in the same directory resolves to, so the
two inputs collide on one output file. -/
theorem C10_hidden_file_collision (p out : Str)
    (hnorm : normpath p = p)
    (hhid : (basename p).take 1 = ['.'])
    (hdir : (dirname p).take 1 ≠ ['/'])
    (hnorm2 : normpath (joinPath (dirname p) "index.html".data) =
      joinPath (dirname p) "index.html".data) :
    get_output_filename p out false true =
      some (joinPath (joinPath out (dirname p)) "index.html".data)
    ∧ get_output_filename (joinPath (dirname p) "index.html".data) out false true =
      some (joinPath (joinPath out (dirname p)) "index.html".data) := by
  have hbn : basename p = '.' :: (basename p).tail := take_one_eq _ _ hhid
  have hnotbase : "base".data.isPrefixOf (basename p) = false := by
    rw [hbn]; rfl
  have hnotindex : basename p ≠ "index.html".data := by
    rw [hbn]; intro h; simp at h
  have hstem : (splitOnChar '.' (basename p)).headD [] = [] := by
    rw [hbn]; exact splitOnChar_dot_head _
  constructor
  · have := (resolverCases p out false true hnorm hnotbase).2 rfl hnotindex rfl
    rw [this, hstem, joinPath_nil_collapse _ _ (by decide)]
  · have hq : basename (joinPath (dirname p) "index.html".data) = "index.html".data :=
      basename_joinPath _ _ (by decide)
    have hqbase : "base".data.isPrefixOf
        (basename (joinPath (dirname p) "index.html".data)) = false := by
      rw [hq]; rfl
    have := (resolverCases (joinPath (dirname p) "index.html".data) out false true
      hnorm2 hqbase).1 (Or.inr (Or.inl hq))
    rw [this, joinPath_assoc out (dirname p) "index.html".data hdir (by decide)]

/-- Witness for C10: `art/.hidden` and `art/index.html` both resolve to
`www/art/index.html`. -/
theorem C10_hidden_file_collision_witness :
    get_output_filename "art/.hidden".data "www".data false true =
      some "www/art/index.html".data
    ∧ get_output_filename "art/index.html".data "www".data false true =
      some "www/art/index.html".data := by
  have h := C10_hidden_file_collision "art/.hidden".data "www".data
    (by decide) (by decide) (by decide) (by decide)
  refine ⟨h.1.trans (by decide), ?_⟩
  have h2 := h.2
  rw [show joinPath (dirname "art/.hidden".data) "index.html".data =
    "art/index.html".data by decide] at h2
  exact h2.trans (by decide)

theorem len_dropWhile_le (p : Char → Bool) (l : Str) :
    (l.dropWhile p).length ≤ l.length := by
  have h := congrArg List.length (List.takeWhile_append_dropWhile (p := p) (l := l))
  simp only [List.length_append] at h
  omega

theorem pySpace_ne_gt (c : Char) (h : pySpace c = true) : c ≠ '>' := by
  intro hc
  subst hc
  exact absurd h (by decide)

theorem ws_getLast?_ne_gt (l : Str) (hl : ∀ x ∈ l, pySpace x = true) :
    l.getLast? ≠ some '>' := by
  intro h
  rcases List.mem_getLast?_eq_getLast h with ⟨hne, heq⟩
  exact pySpace_ne_gt _ (hl _ (List.getLast_mem hne)) heq.symm

theorem minifySub_ws_head (w cs : Str) (hw : ∀ x ∈ w, pySpace x = true) :
    minifySub (w ++ cs) = w ++ minifySub cs := by
  induction w with
  | nil => simp
  | cons x xs ih =>
    have hx' : x ≠ '>' := pySpace_ne_gt x (hw x (by simp))
    rw [List.cons_append]
    simp only [minifySub]
    rw [if_neg (fun hcon => hx' hcon.1)]
    rw [ih (fun y hy => hw y (by simp [hy]))]
    simp

theorem specMinifyGo_eq (n : Nat) : ∀ (cs : Str), cs.length ≤ n → ∀ prev : Option Char,
    (prev = some '>' →
      ¬(cs.takeWhile pySpace ≠ [] ∧ (cs.dropWhile pySpace).take 1 = ['<'])) →
    specMinifyGo prev cs = minifySub cs := by
  induction n with
  | zero =>
    intro cs hcs prev _
    have hnil : cs = [] := List.length_eq_zero.mp (Nat.le_zero.mp hcs)
    subst hnil
    simp [specMinifyGo, minifySub]
  | succ n ih =>
    intro cs hcs prev hg
    cases cs with
    | nil => simp [specMinifyGo, minifySub]
    | cons c cs' =>
      have hlen : cs'.length ≤ n := by
        simp only [List.length_cons] at hcs
        omega
      by_cases hws : pySpace c = true
      · have hcne : c ≠ '>' := pySpace_ne_gt c hws
        have htw : (c :: cs').takeWhile pySpace = c :: cs'.takeWhile pySpace := by
          simp [List.takeWhile, hws]
        have hdw : (c :: cs').dropWhile pySpace = cs'.dropWhile pySpace := by
          simp [List.dropWhile, hws]
        have hnodrop : ¬(prev = some '>' ∧ (cs'.dropWhile pySpace).take 1 = ['<']) := by
          rintro ⟨hp, ht⟩
          exact (hg hp) ⟨by rw [htw]; simp, by rw [hdw]; exact ht⟩
        simp only [specMinifyGo]
        rw [if_pos hws, if_neg hnodrop]
        simp only [minifySub]
        rw [if_neg (fun hcon => hcne hcon.1)]
        have hsplit := minifySub_ws_head (cs'.takeWhile pySpace) (cs'.dropWhile pySpace)
          (fun x hx => List.mem_takeWhile_imp hx)
        rw [List.takeWhile_append_dropWhile] at hsplit
        have hrec := ih (cs'.dropWhile pySpace)
          (le_trans (len_dropWhile_le pySpace cs') hlen)
          (c :: cs'.takeWhile pySpace).getLast?
          (fun hp _ => ws_getLast?_ne_gt (c :: cs'.takeWhile pySpace)
            (by
              intro x hx
              rcases List.mem_cons.mp hx with hx | hx
              · rw [hx]; exact hws
              · exact List.mem_takeWhile_imp hx) hp)
        rw [hrec, hsplit]
        simp
      · by_cases hm : c = '>' ∧ cs'.takeWhile pySpace ≠ [] ∧
            (cs'.dropWhile pySpace).take 1 = ['<']
        · obtain ⟨hc, htw, hlt⟩ := hm
          subst hc
          simp only [minifySub]
          rw [if_pos ⟨trivial, htw, hlt⟩]
          obtain ⟨t0, ts, hcs'⟩ : ∃ t0 ts, cs' = t0 :: ts := by
            cases hcs'' : cs' with
            | nil => rw [hcs''] at htw; simp at htw
            | cons a b => exact ⟨a, b, rfl⟩
          subst hcs'
          have ht0 : pySpace t0 = true := by
            by_contra hh
            simp [List.takeWhile, hh] at htw
          have hdw2 : (t0 :: ts).dropWhile pySpace = ts.dropWhile pySpace := by
            simp [List.dropWhile, ht0]
          rw [hdw2] at hlt ⊢
          obtain ⟨rt, hrt⟩ : ∃ rt, ts.dropWhile pySpace = '<' :: rt :=
            ⟨(ts.dropWhile pySpace).tail, take_one_eq _ _ hlt⟩
          simp only [specMinifyGo]
          rw [if_neg hws, if_pos ht0, hrt]
          rw [if_pos ⟨trivial, rfl⟩]
          simp only [specMinifyGo]
          rw [if_neg (show ¬(pySpace '<' = true) by decide)]
          have hrtlen : rt.length ≤ n := by
            have h1 : (ts.dropWhile pySpace).length ≤ ts.length := len_dropWhile_le pySpace ts
            rw [hrt] at h1
            simp only [List.length_cons] at h1 hcs
            omega
          have hrec := ih rt hrtlen (some '<')
            (fun hp => by simp at hp)
          rw [hrec]
          simp
        · simp only [minifySub, specMinifyGo]
          rw [if_neg hm, if_neg hws]
          congr 1
          exact ih cs' hlen (some c)
            (fun hpc hpair => hm ⟨Option.some.inj hpc, hpair.1, hpair.2⟩)

/-- C7: `minify_html` removes exactly the maximal whitespace runs that stand
immediately between a closing `>` and the next opening `<` and leaves every
other character unchanged (so whitespace inside a text node flanked by
non-tag characters is preserved): the source's regex substitution equals the
claim's character-level description for every input. -/
theorem C7_minify_matches_spec (s : Str) : minify_html s = specMinify s := by
  unfold minify_html specMinify
  exact (specMinifyGo_eq s.length s le_rfl none (fun h => by simp at h)).symm

/-- C4: `_ignore` returns true if and only if the content is classified
binary, or the base name is exactly `complexity.yml`, or the extension is
`.j2` or `.yml`; every other file passes (an unordered disjunction of the
three disqualifiers). -/
theorem C4_ignore_iff (isBin : Bool) (path : Str) :
    _ignore isBin path = true ↔
      (isBin = true ∨ basename path = "complexity.yml".data ∨
        (splitext path).2 = ".j2".data ∨ (splitext path).2 = ".yml".data) := by
  unfold _ignore
  by_cases h1 : isBin = true <;>
    by_cases h2 : basename path = "complexity.yml".data <;>
    by_cases h3 : (splitext path).2 = ".j2".data <;>
    by_cases h4 : (splitext path).2 = ".yml".data <;>
    simp_all

/-- Counterexample to C5 as stated: a template root that exists as a regular
file is not a directory, yet `generate_html` raises nothing (the source
checks `os.path.exists`, not `os.path.isdir`) and the walk over a non-dir
yields no files. -/
theorem C5_counterexample :
    generate_html ⟨PathKind.file, [], fun _ => false, fun _ => []⟩
      "templates".data "www".data [] true = Except.ok ([], none)
    ∧ PathKind.file ≠ PathKind.dir :=
  ⟨rfl, by decide⟩

/-- C5 (amended): `generate_html` fails with `MissingTemplateDirException`
exactly when the template root does not exist at all (`os.path.exists`
false); an existing non-directory entry raises nothing.  The check precedes
the walk, and an erroring run carries no writes by construction. -/
theorem C5_missing_root_iff (fs : TemplateFS) (td od : Str)
    (ut : List Str) (ex : Bool) :
    generate_html fs td od ut ex = Except.error GenErr.missingTemplateDir ↔
      fs.kind = PathKind.absent := by
  unfold generate_html
  by_cases h : fs.kind = PathKind.absent <;> simp [h]

/-- Counterexample to C6 as stated: a successful run that writes one file
returns Python `None`, not the count `1` (the body of `generate_html` has no
`return` statement). -/
theorem C6_counterexample :
    generate_html ⟨PathKind.dir, ["page.html".data], fun _ => false, fun _ => "X".data⟩
      "templates".data "www".data [] false =
      Except.ok ([("www/page/index.html".data, "X".data)], none)
    ∧ (none : Option Nat) ≠ some 1 := by
  constructor
  · rfl
  · simp

/-- C6 (amended): every successful `generate_html` run returns `None`; the
number of files written is not reported. -/
theorem C6_returns_none (fs : TemplateFS) (td od : Str) (ut : List Str) (ex : Bool)
    (r : List (Str × Str) × Option Nat)
    (h : generate_html fs td od ut ex = Except.ok r) : r.2 = none := by
  unfold generate_html at h
  by_cases hk : fs.kind = PathKind.absent
  · rw [if_pos hk] at h
    exact absurd h (by simp)
  · rw [if_neg hk] at h
    injection h with h
    rw [← h]

/-- Witness for C6 (amended) on a concrete successful run. -/
theorem C6_returns_none_witness :
    (([("www/page/index.html".data, "X".data)], none) :
      List (Str × Str) × Option Nat).2 = none :=
  C6_returns_none ⟨PathKind.dir, ["page.html".data], fun _ => false, fun _ => "X".data⟩
    "templates".data "www".data [] false
    ([("www/page/index.html".data, "X".data)], none) rfl

/-- C1 (code bug): the walker computes and prints the resolver's output path
for the caller's `expand` flag, but passes `expand` positionally into the
`minify` parameter of `generate_html_file`, whose own `expand` then defaults
to `True`.  With `expand = false` the resolver (and the printed message) says
`www/art/page.html`, while the run writes `www/art/page/index.html`. -/
theorem C1_expand_arg_slip :
    get_output_filename "art/page.html".data "www".data false false =
      some "www/art/page.html".data
    ∧ generate_html ⟨PathKind.dir, ["art/page.html".data], fun _ => false, fun _ => "X".data⟩
        "templates".data "www".data [] false =
      Except.ok ([("www/art/page/index.html".data, "X".data)], none)
    ∧ "www/art/page/index.html".data ≠ "www/art/page.html".data := by
  refine ⟨by decide, rfl, by decide⟩

theorem contextStep_isSome {V : Type} (ctx : Str → Option V) (e : Str × Option V) (k : Str) :
    ((contextStep ctx e) k).isSome ↔
      (ctx k).isSome ∨
        (((splitext e.1).2 = ".json".data ∨ (splitext e.1).2 = ".yml".data ∨
          (splitext e.1).2 = ".yaml".data) ∧ e.2.isSome ∧ k = (splitext e.1).1) := by
  obtain ⟨fn, pv⟩ := e
  simp only [contextStep]
  by_cases hj : (splitext fn).2 = ".json".data <;>
    by_cases hy : (splitext fn).2 = ".yml".data ∨ (splitext fn).2 = ".yaml".data <;>
    cases pv <;>
    by_cases hk : k = (splitext fn).1 <;>
    simp_all

theorem generate_context_isSome_aux {V : Type} :
    ∀ (entries : List (Str × Option V)) (ctx : Str → Option V) (k : Str),
    ((entries.foldl contextStep ctx) k).isSome ↔
      (ctx k).isSome ∨ ∃ e ∈ entries,
        ((splitext e.1).2 = ".json".data ∨ (splitext e.1).2 = ".yml".data ∨
          (splitext e.1).2 = ".yaml".data) ∧ e.2.isSome ∧ k = (splitext e.1).1 := by
  intro entries
  induction entries with
  | nil =>
    intro ctx k
    simp
  | cons e es ih =>
    intro ctx k
    rw [List.foldl_cons, ih (contextStep ctx e) k, contextStep_isSome]
    simp only [List.mem_cons]
    constructor
    · rintro ((h | h) | ⟨e', he', hp⟩)
      · exact Or.inl h
      · exact Or.inr ⟨e, Or.inl rfl, h⟩
      · exact Or.inr ⟨e', Or.inr he', hp⟩
    · rintro (h | ⟨e', (rfl | he'), hp⟩)
      · exact Or.inl (Or.inl h)
      · exact Or.inl (Or.inr hp)
      · exact Or.inr ⟨e', he', hp⟩

/-- Counterexample to C8 as stated: `a.yml` has a recognized extension and
stem `a`, yet when its parse yields Python `None` the `if obj is not None`
guard of the source drops it, so key `a` is absent from the mapping. -/
theorem C8_counterexample :
    generate_context [("a.yml".data, (none : Option Unit))] "a".data = none
    ∧ (splitext "a.yml".data).2 = ".yml".data
    ∧ (splitext "a.yml".data).1 = "a".data := by
  refine ⟨by decide, by decide, by decide⟩

theorem contextStep_apply_other {V : Type} (ctx : Str → Option V)
    (e : Str × Option V) (k : Str)
    (h : ¬(((splitext e.1).2 = ".json".data ∨ (splitext e.1).2 = ".yml".data ∨
      (splitext e.1).2 = ".yaml".data) ∧ e.2.isSome ∧ (splitext e.1).1 = k)) :
    contextStep ctx e k = ctx k := by
  obtain ⟨fn, pv⟩ := e
  simp only [contextStep]
  by_cases hj : (splitext fn).2 = ".json".data <;>
    by_cases hy : (splitext fn).2 = ".yml".data ∨ (splitext fn).2 = ".yaml".data <;>
    cases pv <;>
    by_cases hk : k = (splitext fn).1 <;>
    simp_all

theorem foldl_contextStep_untouched {V : Type} :
    ∀ (post : List (Str × Option V)) (ctx : Str → Option V) (k : Str),
      (∀ e ∈ post, ¬(((splitext e.1).2 = ".json".data ∨
        (splitext e.1).2 = ".yml".data ∨ (splitext e.1).2 = ".yaml".data) ∧
        e.2.isSome ∧ (splitext e.1).1 = k)) →
      (post.foldl contextStep ctx) k = ctx k := by
  intro post
  induction post with
  | nil =>
    intro ctx k _
    rfl
  | cons e es ih =>
    intro ctx k h
    rw [List.foldl_cons, ih (contextStep ctx e) k (fun e' he' => h e' (List.mem_cons_of_mem e he')),
        contextStep_apply_other ctx e k (h e (List.mem_cons_self e es))]

theorem contextStep_apply_self {V : Type} (ctx : Str → Option V) (fn : Str) (v : V)
    (hrec : (splitext fn).2 = ".json".data ∨ (splitext fn).2 = ".yml".data ∨
      (splitext fn).2 = ".yaml".data) :
    contextStep ctx (fn, some v) ((splitext fn).1) = some v := by
  rcases hrec with h | h | h <;> simp [contextStep, h]

/-- C8 (amended): the mapping's keys are exactly the stems of the direct
entries whose extension is `.json`, `.yml`, or `.yaml` and whose parsed
content is not Python `None`; every other entry (unrecognized extension or
`None` parse) contributes no key and raises nothing.  Each such recognized
entry maps its stem to its own parsed content, provided no later entry of
the listing also qualifies with the same stem (later qualifying duplicates
overwrite in listing order, as the loop assigns `context[name] = obj`). -/
theorem C8_context_mapping {V : Type} (entries : List (Str × Option V)) :
    (∀ k, ((generate_context entries) k).isSome ↔
      ∃ e ∈ entries,
        ((splitext e.1).2 = ".json".data ∨ (splitext e.1).2 = ".yml".data ∨
          (splitext e.1).2 = ".yaml".data) ∧ e.2.isSome ∧ k = (splitext e.1).1)
    ∧ (∀ (pre post : List (Str × Option V)) (fn : Str) (v : V),
        entries = pre ++ (fn, some v) :: post →
        ((splitext fn).2 = ".json".data ∨ (splitext fn).2 = ".yml".data ∨
          (splitext fn).2 = ".yaml".data) →
        (∀ e ∈ post, ¬(((splitext e.1).2 = ".json".data ∨
          (splitext e.1).2 = ".yml".data ∨ (splitext e.1).2 = ".yaml".data) ∧
          e.2.isSome ∧ (splitext e.1).1 = (splitext fn).1)) →
        generate_context entries (splitext fn).1 = some v) := by
  constructor
  · intro k
    unfold generate_context
    rw [generate_context_isSome_aux entries (fun _ => none) k]
    simp
  · intro pre post fn v hsplit hrec hpost
    subst hsplit
    unfold generate_context
    rw [List.foldl_append, List.foldl_cons,
        foldl_contextStep_untouched post _ _ hpost,
        contextStep_apply_self _ fn v hrec]

/-- Witness for C8 (amended) at the claim's example listing: `names.json`
(an earlier entry) maps key `names` to its parsed list, and `numbers.yml`
(the final entry) maps key `numbers` to its parsed list. -/
theorem C8_context_mapping_witness :
    generate_context [("names.json".data, some ["Audrey", "Danny"]),
      ("numbers.yml".data, some ["1", "2", "3", "4"])] "names".data =
      some ["Audrey", "Danny"]
    ∧ generate_context [("names.json".data, some ["Audrey", "Danny"]),
      ("numbers.yml".data, some ["1", "2", "3", "4"])] "numbers".data =
      some ["1", "2", "3", "4"] := by
  constructor
  · have h := (C8_context_mapping (V := List String)
      [("names.json".data, some ["Audrey", "Danny"]),
        ("numbers.yml".data, some ["1", "2", "3", "4"])]).2
      [] [("numbers.yml".data, some ["1", "2", "3", "4"])]
      "names.json".data ["Audrey", "Danny"] rfl (Or.inl (by decide))
      (by
        intro e he
        simp only [List.mem_singleton] at he
        subst he
        rintro ⟨-, -, h3⟩
        exact absurd h3 (by decide))
    rw [show (splitext "names.json".data).1 = "names".data by decide] at h
    exact h
  · have h := (C8_context_mapping (V := List String)
      [("names.json".data, some ["Audrey", "Danny"]),
        ("numbers.yml".data, some ["1", "2", "3", "4"])]).2
      [("names.json".data, some ["Audrey", "Danny"])] []
      "numbers.yml".data ["1", "2", "3", "4"] rfl (Or.inr (Or.inl (by decide)))
      (by intro e he; simp at he)
    rw [show (splitext "numbers.yml".data).1 = "numbers".data by decide] at h
    exact h

theorem copy_assets_dir_fails :
    ∀ (pre : List AssetEntry) (ex evs ex' : List Str)
      (post : List AssetEntry) (name : Str),
      copy_assets pre ex = Except.ok (evs, ex') →
      name ≠ "scss".data → name ≠ "less".data → ex'.contains name = true →
      copy_assets (pre ++ AssetEntry.dir name :: post) ex =
        Except.error CopyErr.destinationExists := by
  intro pre
  induction pre with
  | nil =>
    intro ex evs ex' post name h hn1 hn2 hex
    simp only [copy_assets] at h
    injection h with h
    injection h with h1 h2
    subst h1
    subst h2
    simp only [List.nil_append, copy_assets]
    rw [if_pos ⟨hn1, hn2⟩, if_pos hex]
  | cons e pre' ih =>
    intro ex evs ex' post name h hn1 hn2 hex
    cases e with
    | dir m =>
      simp only [List.cons_append, copy_assets, List.append_eq] at h ⊢
      by_cases hm : m ≠ "scss".data ∧ m ≠ "less".data
      · rw [if_pos hm] at h ⊢
        by_cases hcont : ex.contains m = true
        · rw [if_pos hcont] at h
          exact absurd h (by simp)
        · rw [if_neg hcont] at h ⊢
          cases hc : copy_assets pre' (m :: ex) with
          | error e0 =>
            rw [hc] at h
            simp at h
          | ok p =>
            obtain ⟨evs1, ex1⟩ := p
            rw [hc] at h
            simp only [Except.ok.injEq, Prod.mk.injEq] at h
            rw [ih (m :: ex) evs1 ex1 post name hc hn1 hn2 (by rw [h.2]; exact hex)]
      · rw [if_neg hm] at h ⊢
        exact ih ex evs ex' post name h hn1 hn2 hex
    | file m =>
      simp only [List.cons_append, copy_assets, List.append_eq] at h ⊢
      cases hc : copy_assets pre' (m :: ex) with
      | error e0 =>
        rw [hc] at h
        simp at h
      | ok p =>
        obtain ⟨evs1, ex1⟩ := p
        rw [hc] at h
        simp only [Except.ok.injEq, Prod.mk.injEq] at h
        rw [ih (m :: ex) evs1 ex1 post name hc hn1 hn2 (by rw [h.2]; exact hex)]
    | other m =>
      simp only [List.cons_append, copy_assets, List.append_eq] at h ⊢
      exact ih ex evs ex' post name h hn1 hn2 hex

/-- C9: the copy behaviour of `copy_assets` is asymmetric, as documented:
a subdirectory other than `scss`/`less` whose destination already exists at
the time it is processed aborts the run with the copytree
destination-exists error; a regular file is copied with no existence check
(silent overwrite); an entry that is neither directory nor regular file is
skipped without error. -/
theorem C9_copy_assets_asymmetry :
    (∀ (pre post : List AssetEntry) (name : Str) (ex evs ex' : List Str),
      copy_assets pre ex = Except.ok (evs, ex') →
      name ≠ "scss".data → name ≠ "less".data → ex'.contains name = true →
      copy_assets (pre ++ AssetEntry.dir name :: post) ex =
        Except.error CopyErr.destinationExists)
    ∧ (∀ (name : Str) (rest : List AssetEntry) (ex evs ex' : List Str),
      ex.contains name = true →
      copy_assets rest (name :: ex) = Except.ok (evs, ex') →
      copy_assets (AssetEntry.file name :: rest) ex = Except.ok (name :: evs, ex'))
    ∧ (∀ (name : Str) (rest : List AssetEntry) (ex : List Str),
      copy_assets (AssetEntry.other name :: rest) ex = copy_assets rest ex) := by
  refine ⟨fun pre post name ex evs ex' h h1 h2 h3 =>
      copy_assets_dir_fails pre ex evs ex' post name h h1 h2 h3, ?_, ?_⟩
  · intro name rest ex evs ex' _ h
    simp only [copy_assets]
    rw [h]
  · intro name rest ex
    rfl

/-- Witness for C9: a `css` directory whose destination exists fails; a file
whose destination exists is copied silently; an `other` entry is skipped. -/
theorem C9_copy_assets_asymmetry_witness :
    copy_assets [AssetEntry.dir "css".data] ["css".data] =
      Except.error CopyErr.destinationExists
    ∧ copy_assets [AssetEntry.file "logo.png".data] ["logo.png".data] =
      Except.ok (["logo.png".data], ["logo.png".data, "logo.png".data])
    ∧ copy_assets [AssetEntry.other "link".data] [] = copy_assets [] [] := by
  refine ⟨?_, ?_, ?_⟩
  · exact C9_copy_assets_asymmetry.1 [] [] "css".data ["css".data] [] ["css".data]
      rfl (by decide) (by decide) (by decide)
  · exact C9_copy_assets_asymmetry.2.1 "logo.png".data [] ["logo.png".data] []
      ("logo.png".data :: ["logo.png".data]) (by decide) rfl
  · exact C9_copy_assets_asymmetry.2.2 "link".data [] []
